import Mathlib

/-!
AlphaStream round-robin scheduler: a shallow embedding.

This file embeds the simulation core of `src/App.tsx` (the AlphaStream
multi-core round-robin message processor) in Lean 4 and proves the
specification claims about it.

Modelling conventions:
* JS numbers used as timestamps/latencies are modelled as `Int`
  (`Date.now()` values are integers; `now - msg.timestamp` may in
  principle be negative, so `Int` is the faithful carrier).
* `Math.floor(x / y)` on integer-valued operands with `y > 0` is
  `Int.fdiv` (floor division).
* `Math.random`-derived data (`generateId`, random message type/price,
  random client choice) is threaded in as explicit parameters: the tick
  receives a `genId : Nat → String` supply (indexed by the core that
  calls it), and injection receives the generated id/content/type.
* The React state variables relevant to the simulation are collected in
  one record `SimState`; each setter call in the source becomes a field
  update.
* The tick callback's `for (coreId = 0; coreId < cpuCount; coreId++)`
  loop reads and writes only slot `coreId` of `currentCoreStates` at
  iteration `coreId`, so it is equivalently modelled as structural
  recursion over `coreStates.take cpuCount` (entries at positions
  `≥ cpuCount` are untouched, and positions `≥ length` are skipped by
  the `if (!state) continue` guard, which the `take` also reproduces).
-/

/-- Source: `type ClientId = "APEX" | "NOVA" | "ZEUS" | "FLUX"`. -/
inductive ClientId where
  | APEX
  | NOVA
  | ZEUS
  | FLUX
deriving DecidableEq, Repr, Fintype

/-- Source: the message `type` union `"BUY" | "SELL" | "PING"`. -/
inductive MsgType where
  | BUY
  | SELL
  | PING
deriving DecidableEq, Repr

/-- Source: `interface Message`. -/
structure Message where
  id : String
  clientId : ClientId
  content : String
  timestamp : Int
  type : MsgType
deriving DecidableEq, Repr

/-- Source: `interface ProcessedLog extends Message` — the extension fields
are kept in a nested `msg` field rather than flattened. -/
structure ProcessedLog where
  msg : Message
  processedAt : Int
  latencyMs : Int
  coreId : Nat
deriving DecidableEq, Repr

/-- Source: `interface GanttBlock`. -/
structure GanttBlock where
  id : String
  clientId : ClientId
  startTime : Int
  endTime : Int
  coreId : Nat
deriving DecidableEq, Repr

/-- Source: `const CLIENTS: ClientId[] = ["APEX", "NOVA", "ZEUS", "FLUX"]`. -/
def CLIENTS : List ClientId := [.APEX, .NOVA, .ZEUS, .FLUX]

/-- The per-core rotation pointer: `{ clientIndex: number }`. -/
structure CoreState where
  clientIndex : Nat
deriving DecidableEq, Repr

/-- Source: `Record<ClientId, Message[]>` — the four client queues. -/
structure Queues where
  APEX : List Message
  NOVA : List Message
  ZEUS : List Message
  FLUX : List Message
deriving DecidableEq, Repr

/-- Read `queues[clientId]`. -/
def getQ (q : Queues) : ClientId → List Message
  | .APEX => q.APEX
  | .NOVA => q.NOVA
  | .ZEUS => q.ZEUS
  | .FLUX => q.FLUX

/-- Write `queues[clientId] = l` (the `{ ...prev, [clientId]: l }` spread). -/
def setQ (q : Queues) (c : ClientId) (l : List Message) : Queues :=
  match c with
  | .APEX => { q with APEX := l }
  | .NOVA => { q with NOVA := l }
  | .ZEUS => { q with ZEUS := l }
  | .FLUX => { q with FLUX := l }

/-- Sum of the four queue lengths. -/
def sumQ (q : Queues) : Nat :=
  q.APEX.length + q.NOVA.length + q.ZEUS.length + q.FLUX.length

def emptyQueues : Queues := ⟨[], [], [], []⟩

/-- The metrics record: `{ totalProcessed, avgLatency, activeNodes }`. -/
structure Metrics where
  totalProcessed : Nat
  avgLatency : Int
  activeNodes : Nat
deriving DecidableEq, Repr

/-- All React state variables that the simulation logic reads or writes. -/
structure SimState where
  configMode : Bool
  cpuCount : Nat
  queues : Queues
  logs : List ProcessedLog
  ganttHistory : List GanttBlock
  coreStates : List CoreState
  isProcessing : Bool
  autoInject : Bool
  tickRate : Int
  metrics : Metrics
deriving DecidableEq

/-- The initial values of the `useState` hooks. -/
def initialState : SimState :=
  { configMode := true
    cpuCount := 1
    queues := emptyQueues
    logs := []
    ganttHistory := []
    coreStates := [⟨0⟩]
    isProcessing := false
    autoInject := false
    tickRate := 1200
    metrics := ⟨0, 0, 4⟩ }

/-- Source `initializeSystem(cores)`: sets `cpuCount`, builds
`coreStates` with `clientIndex = i % CLIENTS.length`, leaves config mode. -/
def initializeSystem (cores : Nat) (s : SimState) : SimState :=
  { s with
    cpuCount := cores
    coreStates := (List.range cores).map (fun i => ⟨i % CLIENTS.length⟩)
    configMode := false }

/-- Source `resetSystem()`.  Note that it does NOT touch
`coreStates` or `cpuCount`. -/
def resetSystem (s : SimState) : SimState :=
  { s with
    isProcessing := false
    autoInject := false
    queues := emptyQueues
    logs := []
    ganttHistory := []
    metrics := ⟨0, 0, 4⟩
    configMode := true }

/-- Source `addMessage(clientId)`.  The randomly generated id,
content and message type, and the `Date.now()` value, are passed in. -/
def addMessage (clientId : ClientId) (mid content : String) (mtype : MsgType)
    (now : Int) (s : SimState) : SimState :=
  let newMessage : Message :=
    { id := mid, clientId := clientId, content := content,
      timestamp := now, type := mtype }
  { s with queues := setQ s.queues clientId (getQ s.queues clientId ++ [newMessage]) }

/-- Source: the INITIATE/HALT button handler, `setIsProcessing(!isProcessing)`. -/
def toggleProcessing (s : SimState) : SimState :=
  { s with isProcessing := !s.isProcessing }

/-- Source: the INJECT DATA button handler, `setAutoInject(!autoInject)`. -/
def toggleAutoInject (s : SimState) : SimState :=
  { s with autoInject := !s.autoInject }

/-- Source `CLIENTS[state.clientIndex]` (JS indexing: `undefined` out of range). -/
def coreTarget (st : CoreState) : Option ClientId :=
  CLIENTS.get? st.clientIndex

/-- Source: the unconditional round-robin pointer advance,
`(state.clientIndex + 1) % CLIENTS.length`. -/
def advancePointer (st : CoreState) : CoreState :=
  ⟨(st.clientIndex + 1) % CLIENTS.length⟩

/-- The four accumulators mutated by the tick callback's core loop. -/
structure TickResult where
  queues : Queues
  coreStates : List CoreState
  processedItems : List ProcessedLog
  ganttItems : List GanttBlock
deriving Repr

/-- The tick callback's core loop (`for coreId in 0..cpuCount`), as
structural recursion over the list of core states being processed; the
`coreId` argument carries the absolute index of the head core. -/
def processCores (genId : Nat → String) (now tr : Int) :
    Nat → List CoreState → Queues → TickResult
  | _, [], q => ⟨q, [], [], []⟩
  | coreId, st :: rest, q =>
    match coreTarget st with
    | none =>
      let r := processCores genId now tr (coreId + 1) rest q
      ⟨r.queues, advancePointer st :: r.coreStates, r.processedItems, r.ganttItems⟩
    | some cid =>
      match getQ q cid with
      | [] =>
        let r := processCores genId now tr (coreId + 1) rest q
        ⟨r.queues, advancePointer st :: r.coreStates, r.processedItems, r.ganttItems⟩
      | msg :: remaining =>
        let q2 := setQ q cid remaining
        let pl : ProcessedLog :=
          { msg := msg, processedAt := now, latencyMs := now - msg.timestamp,
            coreId := coreId }
        let gb : GanttBlock :=
          { id := genId coreId, clientId := cid, startTime := now - tr,
            endTime := now, coreId := coreId }
        let r := processCores genId now tr (coreId + 1) rest q2
        ⟨r.queues, advancePointer st :: r.coreStates,
          pl :: r.processedItems, gb :: r.ganttItems⟩

/-- The `setMetrics` updater in the tick (guarded by
`processedItems.length > 0` in the source); `Math.floor` of the division
of integer-valued operands by the positive `newTotal` is `Int.fdiv`. -/
def applyBatch (m : Metrics) (records : List ProcessedLog) : Metrics :=
  if records.length > 0 then
    let newTotal := m.totalProcessed + records.length
    let batchLatency := records.foldl (fun sum item => sum + item.latencyMs) (0 : Int)
    let newAvg := Int.fdiv (m.avgLatency * (m.totalProcessed : Int) + batchLatency)
      (newTotal : Int)
    { m with totalProcessed := newTotal, avgLatency := newAvg }
  else m

/-- JS `array.slice(-n)`: the last `n` elements (the whole list when
shorter). -/
def lastN (n : Nat) (l : List α) : List α := l.drop (l.length - n)

/-- One firing of the tick interval callback (the body of the
`setInterval` closure in the processing effect). -/
def tickBody (genId : Nat → String) (now : Int) (s : SimState) : SimState :=
  let res := processCores genId now s.tickRate 0 (s.coreStates.take s.cpuCount) s.queues
  let newCoreStates := res.coreStates ++ s.coreStates.drop s.cpuCount
  if res.processedItems.length > 0 then
    { s with
      queues := res.queues
      coreStates := newCoreStates
      logs := (res.processedItems ++ s.logs).take 50
      ganttHistory := lastN 100 (s.ganttHistory ++ res.ganttItems)
      metrics := applyBatch s.metrics res.processedItems }
  else
    { s with queues := res.queues, coreStates := newCoreStates }

/-- The batch of processed records produced by one tick of state `s`. -/
def tickBatch (genId : Nat → String) (now : Int) (s : SimState) : List ProcessedLog :=
  (processCores genId now s.tickRate 0 (s.coreStates.take s.cpuCount) s.queues).processedItems

/-- A tick event as driven by the processing effect: the interval (and so
the callback) only exists while `isProcessing && !configMode`. -/
def tickEvent (genId : Nat → String) (now : Int) (s : SimState) : SimState :=
  if s.isProcessing && !s.configMode then tickBody genId now s else s

/-- An injection event as driven by the auto-inject effect: the interval
only exists while `autoInject && !configMode`. -/
def autoInjectEvent (clientId : ClientId) (mid content : String) (mtype : MsgType)
    (now : Int) (s : SimState) : SimState :=
  if s.autoInject && !s.configMode then addMessage clientId mid content mtype now s
  else s

/-- An external stimulus to the simulation: a message injection or a
tick-callback firing.  The nondeterministic inputs (generated ids,
contents, clocks) are carried by the action. -/
inductive SimAction where
  | inject (clientId : ClientId) (mid content : String) (mtype : MsgType) (now : Int)
  | tick (genId : Nat → String) (now : Int)

def applyAction (s : SimState) : SimAction → SimState
  | .inject c mid content mtype now => addMessage c mid content mtype now s
  | .tick genId now => tickBody genId now s

def runActions (acts : List SimAction) (s : SimState) : SimState :=
  acts.foldl applyAction s

/-- Number of injections in a stimulus sequence. -/
def injCount (acts : List SimAction) : Nat :=
  (acts.filter (fun a => match a with
    | .inject _ _ _ _ _ => true
    | .tick _ _ => false)).length

/-! ## Basic lemmas about the queue store and the core loop -/

theorem getQ_setQ_self (q : Queues) (c : ClientId) (l : List Message) :
    getQ (setQ q c l) c = l := by
  cases c <;> simp [getQ, setQ]

theorem getQ_setQ_ne (q : Queues) {c d : ClientId} (l : List Message) (h : c ≠ d) :
    getQ (setQ q c l) d = getQ q d := by
  cases c <;> cases d <;> simp_all [getQ, setQ]

theorem sumQ_setQ_tail (q : Queues) (c : ClientId) (m : Message) (rest : List Message)
    (h : getQ q c = m :: rest) : sumQ (setQ q c rest) + 1 = sumQ q := by
  cases c <;> simp_all [getQ, setQ, sumQ] <;> omega

/-- The core loop always returns the processed prefix of core states with
every pointer advanced by one (mod `CLIENTS.length`). -/
theorem processCores_coreStates (genId : Nat → String) (now tr : Int) :
    ∀ (cs : List CoreState) (coreId : Nat) (q : Queues),
    (processCores genId now tr coreId cs q).coreStates = cs.map advancePointer := by
  intro cs
  induction cs with
  | nil => intro coreId q; rfl
  | cons st rest ih =>
    intro coreId q
    cases h : coreTarget st with
    | none => simp [processCores, h, ih]
    | some cid =>
      cases hq : getQ q cid with
      | nil => simp [processCores, h, hq, ih]
      | cons msg remaining => simp [processCores, h, hq, ih]

/-- Per-tick conservation: messages removed from the queues by the core
loop are exactly the processed records. -/
theorem processCores_sumQ (genId : Nat → String) (now tr : Int) :
    ∀ (cs : List CoreState) (coreId : Nat) (q : Queues),
    sumQ (processCores genId now tr coreId cs q).queues
      + (processCores genId now tr coreId cs q).processedItems.length = sumQ q := by
  intro cs
  induction cs with
  | nil => intro coreId q; rfl
  | cons st rest ih =>
    intro coreId q
    cases h : coreTarget st with
    | none => simp [processCores, h, ih]
    | some cid =>
      cases hq : getQ q cid with
      | nil => simp [processCores, h, hq, ih]
      | cons msg remaining =>
        have hs := sumQ_setQ_tail q cid msg remaining hq
        simp [processCores, h, hq]
        have hr := ih (coreId + 1) (setQ q cid remaining)
        omega

/-- One tick firing conserves `sum of queue lengths + totalProcessed`. -/
theorem tickBody_conservation (genId : Nat → String) (now : Int) (s : SimState) :
    sumQ (tickBody genId now s).queues + (tickBody genId now s).metrics.totalProcessed
      = sumQ s.queues + s.metrics.totalProcessed := by
  have hc := processCores_sumQ genId now s.tickRate (s.coreStates.take s.cpuCount) 0 s.queues
  simp only [tickBody]
  split
  case isTrue hlen =>
    simp only [applyBatch, if_pos hlen]
    omega
  case isFalse hlen =>
    simp at hlen
    simp [hlen] at hc
    simp [hc]

/-- Injection adds exactly one message to the queues and leaves the
metrics untouched. -/
theorem addMessage_conservation (c : ClientId) (mid content : String)
    (mtype : MsgType) (now : Int) (s : SimState) :
    sumQ (addMessage c mid content mtype now s).queues = sumQ s.queues + 1
      ∧ (addMessage c mid content mtype now s).metrics = s.metrics := by
  refine ⟨?_, rfl⟩
  cases c <;> simp [addMessage, setQ, getQ, sumQ] <;> omega

/-- The conservation invariant over an arbitrary stimulus sequence. -/
theorem runActions_conservation :
    ∀ (acts : List SimAction) (s : SimState),
    sumQ (runActions acts s).queues + (runActions acts s).metrics.totalProcessed
      = sumQ s.queues + s.metrics.totalProcessed + injCount acts := by
  intro acts
  induction acts with
  | nil => intro s; simp [runActions, injCount]
  | cons a rest ih =>
    intro s
    cases a with
    | inject c mid content mtype now =>
      have hstep := addMessage_conservation c mid content mtype now s
      have hr := ih (addMessage c mid content mtype now s)
      simp only [runActions, List.foldl_cons, applyAction] at hr ⊢
      simp [injCount, List.filter] at hr ⊢
      rw [hr, hstep.1, hstep.2]
      omega
    | tick genId now =>
      have hstep := tickBody_conservation genId now s
      have hr := ih (tickBody genId now s)
      simp only [runActions, List.foldl_cons, applyAction] at hr ⊢
      simp [injCount, List.filter] at hr ⊢
      omega

/-! ## C1: conservation of messages -/

/-- C1: Conservation of messages.  For every sequence of injections and
tick firings starting from a freshly configured system, the sum of the
four client queue lengths plus `metrics.totalProcessed` equals the total
number of messages ever injected. -/
theorem C1_conservation_of_messages (cores : Nat) (acts : List SimAction) :
    sumQ (runActions acts (initializeSystem cores initialState)).queues
      + (runActions acts (initializeSystem cores initialState)).metrics.totalProcessed
      = injCount acts := by
  have h := runActions_conservation acts (initializeSystem cores initialState)
  simpa [initializeSystem, initialState, emptyQueues, sumQ] using h

/-! ## C3: unconditional rotation advance -/

/-- C3: Unconditional rotation advance.  On every tick each core's
rotation index becomes `(old + 1) % clientCount`, whether or not that
core dequeued a message (the hypothesis `cpuCount = coreStates.length`
holds in every reachable state: `initializeSystem` establishes it and
no operation breaks it). -/
theorem C3_rotation_advance (genId : Nat → String) (now : Int) (s : SimState)
    (h : s.cpuCount = s.coreStates.length) :
    (tickBody genId now s).coreStates
      = s.coreStates.map (fun st => CoreState.mk ((st.clientIndex + 1) % CLIENTS.length)) := by
  have htake : s.coreStates.take s.cpuCount = s.coreStates := by
    rw [h]; exact List.take_length _
  have hdrop : s.coreStates.drop s.cpuCount = [] := by
    rw [h]; exact List.drop_length _
  have hcs := processCores_coreStates genId now s.tickRate (s.coreStates.take s.cpuCount) 0 s.queues
  rw [htake] at hcs
  simp only [tickBody, htake, hdrop]
  split <;> simp [hcs, advancePointer]

theorem C3_rotation_advance_witness :
    (initializeSystem 2 initialState).cpuCount
        = (initializeSystem 2 initialState).coreStates.length
    ∧ (tickBody (fun _ => "w3") 1000 (initializeSystem 2 initialState)).coreStates
        = (initializeSystem 2 initialState).coreStates.map
            (fun st => CoreState.mk ((st.clientIndex + 1) % CLIENTS.length)) :=
  ⟨by decide, C3_rotation_advance (fun _ => "w3") 1000 (initializeSystem 2 initialState) (by decide)⟩

/-! ## C4: metrics exactness -/

theorem foldl_latency_sum (records : List ProcessedLog) :
    ∀ a : Int, records.foldl (fun sum item => sum + item.latencyMs) a
      = a + (records.map (fun r => r.latencyMs)).sum := by
  induction records with
  | nil => intro a; simp
  | cons r rest ih =>
    intro a
    simp [List.foldl_cons, ih]
    ring

/-- C4: Metrics exactness.  A non-empty batch sets
`totalProcessed := totalProcessed + len(records)` and
`avgLatency := floor((avgLatency * totalProcessed + Σ latencyMs) / newTotal)`
(floor division, `Int.fdiv`; for the non-negative values arising at run
time this coincides with truncating division); an empty batch changes
nothing. -/
theorem C4_metrics_exactness (m : Metrics) (records : List ProcessedLog) :
    (records ≠ [] →
      applyBatch m records =
        { totalProcessed := m.totalProcessed + records.length
          avgLatency := Int.fdiv
            (m.avgLatency * (m.totalProcessed : Int)
              + (records.map (fun r => r.latencyMs)).sum)
            ((m.totalProcessed + records.length : Nat) : Int)
          activeNodes := m.activeNodes })
    ∧ applyBatch m [] = m := by
  constructor
  · intro h
    have hlen : records.length > 0 := List.length_pos.mpr h
    simp [applyBatch, hlen, foldl_latency_sum]
  · rfl

theorem C4_metrics_exactness_witness :
    ([(⟨⟨"m", .APEX, "c", 3, .BUY⟩, 10, 7, 0⟩ : ProcessedLog)] ≠ [])
    ∧ applyBatch ⟨3, 5, 4⟩ [⟨⟨"m", .APEX, "c", 3, .BUY⟩, 10, 7, 0⟩] =
        { totalProcessed := 3 + 1
          avgLatency := Int.fdiv
            ((5 : Int) * ((3 : Nat) : Int)
              + ([(⟨⟨"m", .APEX, "c", 3, .BUY⟩, 10, 7, 0⟩ : ProcessedLog)].map
                  (fun r => r.latencyMs)).sum)
            (((3 + 1 : Nat) : Int))
          activeNodes := 4 } :=
  ⟨by decide,
    (C4_metrics_exactness ⟨3, 5, 4⟩ [⟨⟨"m", .APEX, "c", 3, .BUY⟩, 10, 7, 0⟩]).1 (by decide)⟩

/-! ## C5: processed-record history bound and ordering -/

/-- The logs after one tick: prepend the batch, truncate to 50 (no
change when the batch is empty). -/
theorem tickBody_logs (genId : Nat → String) (now : Int) (s : SimState) :
    (tickBody genId now s).logs =
      (if tickBatch genId now s = [] then s.logs
       else (tickBatch genId now s ++ s.logs).take 50) := by
  simp only [tickBody, tickBatch]
  split
  case isTrue hlen =>
    have hne : (processCores genId now s.tickRate 0
        (s.coreStates.take s.cpuCount) s.queues).processedItems ≠ [] := by
      intro hnil
      rw [hnil] at hlen
      simp at hlen
    simp [hne]
  case isFalse hlen =>
    have hnil : (processCores genId now s.tickRate 0
        (s.coreStates.take s.cpuCount) s.queues).processedItems = [] := by
      simpa using hlen
    simp [hnil]

/-- The 50-entry bound is preserved by every stimulus. -/
theorem runActions_logs_le :
    ∀ (acts : List SimAction) (s : SimState),
    s.logs.length ≤ 50 → (runActions acts s).logs.length ≤ 50 := by
  intro acts
  induction acts with
  | nil => intro s h; simpa [runActions] using h
  | cons a rest ih =>
    intro s h
    simp only [runActions, List.foldl_cons] at ih ⊢
    apply ih
    cases a with
    | inject c mid content mtype now => simpa [applyAction, addMessage] using h
    | tick genId now =>
      simp only [applyAction]
      rw [tickBody_logs]
      split
      · exact h
      · exact le_trans (List.length_take_le 50 _) (le_refl 50)

/-- C5: ProcessedRecord history bound and ordering.  After a tick the
log is the new batch prepended to the old log and truncated to the
50-record retention cap (newest-first; a tick with an empty batch
leaves it untouched), the cap is preserved by a tick, and along any run
from a freshly configured system the log never exceeds 50 entries. -/
theorem C5_history_bound (genId : Nat → String) (now : Int) (s : SimState) :
    ((tickBody genId now s).logs =
      (if tickBatch genId now s = [] then s.logs
       else (tickBatch genId now s ++ s.logs).take 50))
    ∧ (s.logs.length ≤ 50 → (tickBody genId now s).logs.length ≤ 50)
    ∧ (∀ (cores : Nat) (acts : List SimAction),
        (runActions acts (initializeSystem cores initialState)).logs.length ≤ 50) := by
  refine ⟨tickBody_logs genId now s, ?_, ?_⟩
  · intro h
    rw [tickBody_logs]
    split
    · exact h
    · exact le_trans (List.length_take_le 50 _) (le_refl 50)
  · intro cores acts
    apply runActions_logs_le
    simp [initializeSystem, initialState]

theorem C5_history_bound_witness :
    (initializeSystem 1 initialState).logs.length ≤ 50
    ∧ (tickBody (fun _ => "w5") 1000 (initializeSystem 1 initialState)).logs.length ≤ 50 :=
  ⟨by decide,
    (C5_history_bound (fun _ => "w5") 1000 (initializeSystem 1 initialState)).2.1 (by decide)⟩

/-! ## C6: reset (corrected: core rotation indices survive a reset) -/

/-- C6 counterexample: configure one core, start processing, run one
tick (which advances core 0's rotation index to 1), then reset.
`resetSystem` does not touch `coreStates`, so the rotation index is
still 1, not its initial value 0. -/
theorem C6_reset_counterexample :
    (resetSystem (tickEvent (fun _ => "c6") 1000
        (toggleProcessing (initializeSystem 1 initialState)))).coreStates
      ≠ (initializeSystem 1 initialState).coreStates
    ∧ (resetSystem (tickEvent (fun _ => "c6") 1000
        (toggleProcessing (initializeSystem 1 initialState)))).coreStates
      ≠ initialState.coreStates := by
  decide

/-- C6 (amended): `resetSystem` empties all four queues, clears both
history logs, zeroes the metrics, stops processing and auto-injection,
and returns to config mode — but it leaves the per-core rotation
indices and the core count unchanged; those are re-initialized only by
the next `initializeSystem`. -/
theorem C6_reset_amended (s : SimState) :
    (resetSystem s).queues = emptyQueues
    ∧ (resetSystem s).logs = []
    ∧ (resetSystem s).ganttHistory = []
    ∧ (resetSystem s).metrics = ⟨0, 0, 4⟩
    ∧ (resetSystem s).isProcessing = false
    ∧ (resetSystem s).autoInject = false
    ∧ (resetSystem s).configMode = true
    ∧ (resetSystem s).coreStates = s.coreStates
    ∧ (resetSystem s).cpuCount = s.cpuCount := by
  refine ⟨rfl, rfl, rfl, rfl, rfl, rfl, rfl, rfl, rfl⟩

/-! ## C8: behaviour before configuration (corrected: silent no-op, not
an error) -/

/-- C8 counterexample: in the unconfigured state (`configMode = true`,
here even with the processing and auto-inject switches forced on) a
tick-interval firing and an injection-interval firing leave the state
exactly unchanged — the guards `isProcessing && !configMode` and
`autoInject && !configMode` silently suppress them; nothing in the
source throws or rejects, so the claimed fail-fast error does not
happen. -/
theorem C8_unconfigured_counterexample :
    tickEvent (fun _ => "c8") 500 (toggleAutoInject (toggleProcessing initialState))
        = toggleAutoInject (toggleProcessing initialState)
    ∧ autoInjectEvent .APEX "m0" "BUY @ 100.00" .BUY 500
          (toggleAutoInject (toggleProcessing initialState))
        = toggleAutoInject (toggleProcessing initialState) := by
  decide

/-- C8 (amended): while the system is unconfigured (`configMode` still
true) the tick and auto-inject intervals are not installed, so tick and
injection events are silently ignored: the state is left unchanged and
no error of any kind is raised. -/
theorem C8_unconfigured_noop (genId : Nat → String) (now : Int) (c : ClientId)
    (mid content : String) (mtype : MsgType) (s : SimState)
    (h : s.configMode = true) :
    tickEvent genId now s = s
    ∧ autoInjectEvent c mid content mtype now s = s := by
  constructor <;> simp [tickEvent, autoInjectEvent, h]

theorem C8_unconfigured_noop_witness :
    (toggleAutoInject (toggleProcessing initialState)).configMode = true
    ∧ (tickEvent (fun _ => "w8") 500 (toggleAutoInject (toggleProcessing initialState))
          = toggleAutoInject (toggleProcessing initialState)
      ∧ autoInjectEvent .NOVA "m1" "PING @ 250.00" .PING 500
            (toggleAutoInject (toggleProcessing initialState))
          = toggleAutoInject (toggleProcessing initialState)) :=
  ⟨by decide,
    C8_unconfigured_noop (fun _ => "w8") 500 .NOVA "m1" "PING @ 250.00" .PING
      (toggleAutoInject (toggleProcessing initialState)) (by decide)⟩

/-! ## C9: the two-core example scenario -/

/-- C9: Two-core example scenario.  `configure(2)` starts core 0 at
rotation index 0 (APEX) and core 1 at index 1 (NOVA); after injecting
one APEX message and one NOVA message, a single tick dequeues both:
the batch is exactly `[⟨msgA, coreId 0⟩, ⟨msgB, coreId 1⟩]`,
`totalProcessed` becomes 2, and both queues are empty. -/
theorem C9_two_core_scenario :
    (tickBatch (fun _ => "c9") 1000
        (toggleProcessing (addMessage .NOVA "b1" "SELL @ 600.00" .SELL 200
          (addMessage .APEX "a1" "BUY @ 500.00" .BUY 100
            (initializeSystem 2 initialState))))
      = [⟨⟨"a1", .APEX, "BUY @ 500.00", 100, .BUY⟩, 1000, 900, 0⟩,
         ⟨⟨"b1", .NOVA, "SELL @ 600.00", 200, .SELL⟩, 1000, 800, 1⟩])
    ∧ (tickEvent (fun _ => "c9") 1000
        (toggleProcessing (addMessage .NOVA "b1" "SELL @ 600.00" .SELL 200
          (addMessage .APEX "a1" "BUY @ 500.00" .BUY 100
            (initializeSystem 2 initialState))))).metrics.totalProcessed = 2
    ∧ getQ (tickEvent (fun _ => "c9") 1000
        (toggleProcessing (addMessage .NOVA "b1" "SELL @ 600.00" .SELL 200
          (addMessage .APEX "a1" "BUY @ 500.00" .BUY 100
            (initializeSystem 2 initialState))))).queues .APEX = []
    ∧ getQ (tickEvent (fun _ => "c9") 1000
        (toggleProcessing (addMessage .NOVA "b1" "SELL @ 600.00" .SELL 200
          (addMessage .APEX "a1" "BUY @ 500.00" .BUY 100
            (initializeSystem 2 initialState))))).queues .NOVA = [] := by
  decide

/-! ## C10: idle-tick frame condition -/

/-- When every processed core's target queue is empty, the core loop
dequeues nothing, emits nothing, and only advances the pointers. -/
theorem processCores_idle (genId : Nat → String) (now tr : Int) :
    ∀ (cs : List CoreState) (coreId : Nat) (q : Queues),
    (∀ st ∈ cs, ∀ cid, coreTarget st = some cid → getQ q cid = []) →
    processCores genId now tr coreId cs q = ⟨q, cs.map advancePointer, [], []⟩ := by
  intro cs
  induction cs with
  | nil => intro coreId q _; rfl
  | cons st rest ih =>
    intro coreId q h
    have hrest : ∀ st2 ∈ rest, ∀ cid, coreTarget st2 = some cid → getQ q cid = [] :=
      fun st2 hst2 cid hc => h st2 (List.mem_cons_of_mem st hst2) cid hc
    cases hct : coreTarget st with
    | none => simp [processCores, hct, ih _ _ hrest]
    | some cid =>
      have hq : getQ q cid = [] := h st (List.mem_cons_self st rest) cid hct
      simp [processCores, hct, hq, ih _ _ hrest]

/-- C10: Idle-tick frame condition.  On a tick in which no core's target
queue holds a message, the queues, both history logs, and the metrics
are all unchanged; the only state change is that each processed core's
rotation pointer advances by one. -/
theorem C10_idle_tick_frame (genId : Nat → String) (now : Int) (s : SimState)
    (h : ∀ st ∈ s.coreStates.take s.cpuCount, ∀ cid,
        coreTarget st = some cid → getQ s.queues cid = []) :
    tickBody genId now s =
      { s with coreStates := (s.coreStates.take s.cpuCount).map advancePointer
                              ++ s.coreStates.drop s.cpuCount } := by
  have hp := processCores_idle genId now s.tickRate (s.coreStates.take s.cpuCount) 0 s.queues h
  simp [tickBody, hp]

theorem C10_idle_tick_frame_witness :
    (∀ st ∈ (initializeSystem 2 initialState).coreStates.take
          (initializeSystem 2 initialState).cpuCount, ∀ cid,
        coreTarget st = some cid → getQ (initializeSystem 2 initialState).queues cid = [])
    ∧ tickBody (fun _ => "w10") 77 (initializeSystem 2 initialState) =
      { initializeSystem 2 initialState with
          coreStates :=
            ((initializeSystem 2 initialState).coreStates.take
                (initializeSystem 2 initialState).cpuCount).map advancePointer
              ++ (initializeSystem 2 initialState).coreStates.drop
                  (initializeSystem 2 initialState).cpuCount } :=
  ⟨by decide,
    C10_idle_tick_frame (fun _ => "w10") 77 (initializeSystem 2 initialState) (by decide)⟩

/-! ## C7: single-core round-robin fairness -/

/-- C7: Round-robin fairness.  With a single configured core whose
rotation index starts at 0 and all four client queues non-empty, four
(= clientCount) consecutive ticks service each client exactly once:
tick t dequeues exactly the head of client t's queue (in the CLIENTS
rotation order APEX, NOVA, ZEUS, FLUX) and nothing else, so after the
four ticks every queue has lost exactly its head. -/
theorem C7_round_robin_fairness (g1 g2 g3 g4 : Nat → String) (n1 n2 n3 n4 : Int)
    (qu : Queues) (a b c d : Message) (as bs cs ds : List Message)
    (hA : qu.APEX = a :: as) (hN : qu.NOVA = b :: bs)
    (hZ : qu.ZEUS = c :: cs) (hF : qu.FLUX = d :: ds) :
    tickBatch g1 n1 { initializeSystem 1 initialState with queues := qu }
        = [⟨a, n1, n1 - a.timestamp, 0⟩]
    ∧ tickBatch g2 n2 (tickBody g1 n1 { initializeSystem 1 initialState with queues := qu })
        = [⟨b, n2, n2 - b.timestamp, 0⟩]
    ∧ tickBatch g3 n3 (tickBody g2 n2 (tickBody g1 n1
          { initializeSystem 1 initialState with queues := qu }))
        = [⟨c, n3, n3 - c.timestamp, 0⟩]
    ∧ tickBatch g4 n4 (tickBody g3 n3 (tickBody g2 n2 (tickBody g1 n1
          { initializeSystem 1 initialState with queues := qu })))
        = [⟨d, n4, n4 - d.timestamp, 0⟩]
    ∧ (tickBody g4 n4 (tickBody g3 n3 (tickBody g2 n2 (tickBody g1 n1
          { initializeSystem 1 initialState with queues := qu })))).queues
        = ⟨as, bs, cs, ds⟩ := by
  obtain ⟨qA, qB, qC, qD⟩ := qu
  dsimp only at hA hN hZ hF
  subst hA hN hZ hF
  refine ⟨?_, ?_, ?_, ?_, ?_⟩ <;>
    simp [tickBatch, tickBody, processCores, initializeSystem, initialState,
      coreTarget, CLIENTS, getQ, setQ, advancePointer, applyBatch, lastN, emptyQueues]

theorem C7_round_robin_fairness_witness :
    (⟨[⟨"a", .APEX, "x", 1, .BUY⟩], [⟨"b", .NOVA, "x", 2, .BUY⟩],
      [⟨"c", .ZEUS, "x", 3, .BUY⟩], [⟨"d", .FLUX, "x", 4, .BUY⟩]⟩ : Queues).APEX
        = [⟨"a", .APEX, "x", 1, .BUY⟩]
    ∧ (tickBody (fun _ => "t4") 40 (tickBody (fun _ => "t3") 30 (tickBody (fun _ => "t2") 20
        (tickBody (fun _ => "t1") 10
          { initializeSystem 1 initialState with queues :=
              ⟨[⟨"a", .APEX, "x", 1, .BUY⟩], [⟨"b", .NOVA, "x", 2, .BUY⟩],
                [⟨"c", .ZEUS, "x", 3, .BUY⟩], [⟨"d", .FLUX, "x", 4, .BUY⟩]⟩ })))).queues
        = ⟨[], [], [], []⟩ :=
  ⟨rfl,
    (C7_round_robin_fairness (fun _ => "t1") (fun _ => "t2") (fun _ => "t3") (fun _ => "t4")
      10 20 30 40
      ⟨[⟨"a", .APEX, "x", 1, .BUY⟩], [⟨"b", .NOVA, "x", 2, .BUY⟩],
        [⟨"c", .ZEUS, "x", 3, .BUY⟩], [⟨"d", .FLUX, "x", 4, .BUY⟩]⟩
      ⟨"a", .APEX, "x", 1, .BUY⟩ ⟨"b", .NOVA, "x", 2, .BUY⟩
      ⟨"c", .ZEUS, "x", 3, .BUY⟩ ⟨"d", .FLUX, "x", 4, .BUY⟩
      [] [] [] [] rfl rfl rfl rfl).2.2.2.2⟩

/-! ## C2: multi-core collision determinism -/

/-- Queue-store well-formedness: every message sits in the queue of its
own client.  `addMessage` enqueues `newMessage` under
`newMessage.clientId`, so every reachable queue store satisfies this. -/
def WFQueues (q : Queues) : Prop :=
  ∀ c : ClientId, ∀ m ∈ getQ q c, m.clientId = c

instance (q : Queues) : Decidable (WFQueues q) :=
  inferInstanceAs (Decidable (∀ c : ClientId, ∀ m ∈ getQ q c, m.clientId = c))

theorem wfQueues_setQ_tail {q : Queues} {c : ClientId} {m : Message}
    {rest : List Message} (hwf : WFQueues q) (hq : getQ q c = m :: rest) :
    WFQueues (setQ q c rest) := by
  intro d mm hmm
  by_cases hdc : c = d
  · subst hdc
    rw [getQ_setQ_self] at hmm
    exact hwf c mm (by rw [hq]; exact List.mem_cons_of_mem m hmm)
  · rw [getQ_setQ_ne q rest hdc] at hmm
    exact hwf d mm hmm

/-- If client `c`'s queue is empty when the loop starts, it stays empty
and no emitted record belongs to `c`. -/
theorem processCores_emptyQueue (genId : Nat → String) (now tr : Int) (c : ClientId) :
    ∀ (cs : List CoreState) (coreId : Nat) (q : Queues),
    WFQueues q → getQ q c = [] →
    getQ (processCores genId now tr coreId cs q).queues c = []
    ∧ ∀ r ∈ (processCores genId now tr coreId cs q).processedItems, r.msg.clientId ≠ c := by
  intro cs
  induction cs with
  | nil =>
    intro coreId q _ hqc
    exact ⟨hqc, by intro r hr; simp [processCores] at hr⟩
  | cons st rest ih =>
    intro coreId q hwf hqc
    cases hct : coreTarget st with
    | none =>
      have := ih (coreId + 1) q hwf hqc
      simpa [processCores, hct] using this
    | some cid =>
      cases hq2 : getQ q cid with
      | nil =>
        have := ih (coreId + 1) q hwf hqc
        simpa [processCores, hct, hq2] using this
      | cons msg remaining =>
        have hcc : cid ≠ c := by
          intro h
          rw [h, hqc] at hq2
          exact List.noConfusion hq2
        have hwf2 : WFQueues (setQ q cid remaining) := wfQueues_setQ_tail hwf hq2
        have hq2c : getQ (setQ q cid remaining) c = [] := by
          rw [getQ_setQ_ne q remaining hcc]; exact hqc
        have hmsg : msg.clientId = cid := hwf cid msg (by rw [hq2]; exact List.mem_cons_self msg remaining)
        have hrec := ih (coreId + 1) (setQ q cid remaining) hwf2 hq2c
        refine ⟨by simpa [processCores, hct, hq2] using hrec.1, ?_⟩
        intro r hr
        simp only [processCores, hct, hq2] at hr
        rcases List.mem_cons.mp hr with hr0 | hr'
        · subst hr0; simpa [hmsg] using hcc
        · exact hrec.2 r hr'

/-- Every emitted record comes from a core in the processed range, and
(for a well-formed queue store) its client is that core's target at the
start of the tick. -/
theorem processCores_records_target (genId : Nat → String) (now tr : Int) :
    ∀ (cs : List CoreState) (coreId : Nat) (q : Queues),
    WFQueues q →
    ∀ r ∈ (processCores genId now tr coreId cs q).processedItems,
    ∃ k, k < cs.length ∧ r.coreId = coreId + k
      ∧ ∃ st, cs.get? k = some st ∧ coreTarget st = some r.msg.clientId := by
  intro cs
  induction cs with
  | nil =>
    intro coreId q _ r hr
    simp [processCores] at hr
  | cons st rest ih =>
    intro coreId q hwf r hr
    cases hct : coreTarget st with
    | none =>
      simp only [processCores, hct] at hr
      obtain ⟨k, hk, hck, stk, hgk, htk⟩ := ih (coreId + 1) q hwf r hr
      exact ⟨k + 1, by simpa using Nat.succ_lt_succ hk, by omega, stk, by simpa using hgk, htk⟩
    | some cid =>
      cases hq2 : getQ q cid with
      | nil =>
        simp only [processCores, hct, hq2] at hr
        obtain ⟨k, hk, hck, stk, hgk, htk⟩ := ih (coreId + 1) q hwf r hr
        exact ⟨k + 1, by simpa using Nat.succ_lt_succ hk, by omega, stk, by simpa using hgk, htk⟩
      | cons msg remaining =>
        have hmsg : msg.clientId = cid :=
          hwf cid msg (by rw [hq2]; exact List.mem_cons_self msg remaining)
        have hwf2 : WFQueues (setQ q cid remaining) := wfQueues_setQ_tail hwf hq2
        simp only [processCores, hct, hq2] at hr
        rcases List.mem_cons.mp hr with hr0 | hr'
        · refine ⟨0, by simp, by simp [hr0], st, rfl, ?_⟩
          rw [hr0]
          simpa [hmsg] using hct
        · obtain ⟨k, hk, hck, stk, hgk, htk⟩ := ih (coreId + 1) (setQ q cid remaining) hwf2 r hr'
          exact ⟨k + 1, by simpa using Nat.succ_lt_succ hk, by omega, stk, by simpa using hgk, htk⟩

/-- The client targeted by the core at position `k` of a core-state
list. -/
def targetAt (cs : List CoreState) (k : Nat) : Option ClientId :=
  (cs.get? k).bind coreTarget

/-- Collision determinism for the core loop: if cores `i < j` both
target client `c`, no core before `i` targets `c`, and `c`'s queue
holds exactly one message `m`, then the loop emits exactly one record
for `c` — message `m`, processed by core `coreId + i` — no record at
all comes from core `coreId + j`, and `c`'s queue ends empty. -/
theorem processCores_collision (genId : Nat → String) (now tr : Int)
    (c : ClientId) (m : Message) :
    ∀ (cs : List CoreState) (i j coreId : Nat) (q : Queues),
    WFQueues q → i < j → j < cs.length →
    targetAt cs i = some c → targetAt cs j = some c →
    (∀ k, k < i → targetAt cs k ≠ some c) →
    getQ q c = [m] →
    ((processCores genId now tr coreId cs q).processedItems.filter
        (fun r => decide (r.msg.clientId = c)))
      = [⟨m, now, now - m.timestamp, coreId + i⟩]
    ∧ (∀ r ∈ (processCores genId now tr coreId cs q).processedItems,
        r.coreId ≠ coreId + j)
    ∧ getQ (processCores genId now tr coreId cs q).queues c = [] := by
  intro cs
  induction cs with
  | nil =>
    intro i j coreId q _ _ hj
    simp at hj
  | cons st rest ih =>
    intro i j coreId q hwf hij hj hi hjt hlow hqc
    obtain ⟨j', rfl⟩ : ∃ j', j = j' + 1 := ⟨j - 1, by omega⟩
    have hjt' : targetAt rest j' = some c := by simpa [targetAt] using hjt
    have hj' : j' < rest.length := by simpa using hj
    cases i with
    | zero =>
      have hst : coreTarget st = some c := by simpa [targetAt] using hi
      have hm : m.clientId = c := hwf c m (by rw [hqc]; exact List.mem_cons_self m [])
      have hwf2 : WFQueues (setQ q c []) := wfQueues_setQ_tail hwf hqc
      have h0 : getQ (setQ q c []) c = [] := getQ_setQ_self q c []
      have hrec := processCores_emptyQueue genId now tr c rest (coreId + 1)
        (setQ q c []) hwf2 h0
      have hrt := processCores_records_target genId now tr rest (coreId + 1)
        (setQ q c []) hwf2
      refine ⟨?_, ?_, ?_⟩
      · simp only [processCores, hst, hqc]
        simp [hm]
        intro r hr
        exact hrec.2 r hr
      · intro r hr
        simp only [processCores, hst, hqc] at hr
        rcases List.mem_cons.mp hr with hr0 | hr'
        · rw [hr0]; simp
        · intro hcontra
          obtain ⟨k, hk, hck, stk, hgk, htk⟩ := hrt r hr'
          have hkj : k = j' := by omega
          subst hkj
          rw [targetAt, hgk] at hjt'
          simp only [Option.some_bind] at hjt'
          rw [htk] at hjt'
          exact hrec.2 r hr' (by simpa using hjt')
      · simp only [processCores, hst, hqc]
        exact hrec.1
    | succ i' =>
      have hst : coreTarget st ≠ some c := by
        have := hlow 0 (Nat.succ_pos i')
        simpa [targetAt] using this
      have hi' : targetAt rest i' = some c := by simpa [targetAt] using hi
      have hlow' : ∀ k, k < i' → targetAt rest k ≠ some c := by
        intro k hk
        have := hlow (k + 1) (by omega)
        simpa [targetAt] using this
      have hij' : i' < j' := by omega
      have harith : coreId + 1 + i' = coreId + (i' + 1) := by omega
      cases hct : coreTarget st with
      | none =>
        have hrec := ih i' j' (coreId + 1) q hwf hij' hj' hi' hjt' hlow' hqc
        refine ⟨?_, ?_, ?_⟩
        · simp only [processCores, hct]
          have h1 := hrec.1
          rw [harith] at h1
          exact h1
        · intro r hr
          simp only [processCores, hct] at hr
          have h2 := hrec.2.1 r hr
          omega
        · simp only [processCores, hct]
          exact hrec.2.2
      | some cid =>
        have hcc : cid ≠ c := fun h => hst (by rw [hct, h])
        cases hq2 : getQ q cid with
        | nil =>
          have hrec := ih i' j' (coreId + 1) q hwf hij' hj' hi' hjt' hlow' hqc
          refine ⟨?_, ?_, ?_⟩
          · simp only [processCores, hct, hq2]
            have h1 := hrec.1
            rw [harith] at h1
            exact h1
          · intro r hr
            simp only [processCores, hct, hq2] at hr
            have h2 := hrec.2.1 r hr
            omega
          · simp only [processCores, hct, hq2]
            exact hrec.2.2
        | cons msg remaining =>
          have hmsg : msg.clientId = cid :=
            hwf cid msg (by rw [hq2]; exact List.mem_cons_self msg remaining)
          have hwf2 : WFQueues (setQ q cid remaining) := wfQueues_setQ_tail hwf hq2
          have hq2c : getQ (setQ q cid remaining) c = [m] := by
            rw [getQ_setQ_ne q remaining hcc]; exact hqc
          have hrec := ih i' j' (coreId + 1) (setQ q cid remaining) hwf2 hij' hj'
            hi' hjt' hlow' hq2c
          refine ⟨?_, ?_, ?_⟩
          · simp only [processCores, hct, hq2]
            have h1 := hrec.1
            rw [harith] at h1
            simpa [hmsg, hcc] using h1
          · intro r hr
            simp only [processCores, hct, hq2] at hr
            rcases List.mem_cons.mp hr with hr0 | hr'
            · rw [hr0]; simp
            · have h2 := hrec.2.1 r hr'
              omega
          · simp only [processCores, hct, hq2]
            exact hrec.2.2

/-- C2: Multi-core collision determinism.  Within one tick, cores are
processed in increasing coreId order against the shared queue snapshot:
if cores `i < j` both target client `c` (and no lower-numbered core
does), and `c`'s queue holds exactly one message `m`, then the tick's
batch contains exactly one record for `c` — message `m` dequeued by
core `i` — core `j` emits no record at all that tick, and `c`'s queue
is left empty (so no message is dequeued twice). -/
theorem C2_collision_determinism (genId : Nat → String) (now : Int) (s : SimState)
    (c : ClientId) (m : Message) (i j : Nat)
    (hwf : WFQueues s.queues)
    (hij : i < j) (hj : j < (s.coreStates.take s.cpuCount).length)
    (hi : targetAt (s.coreStates.take s.cpuCount) i = some c)
    (hjt : targetAt (s.coreStates.take s.cpuCount) j = some c)
    (hlow : ∀ k, k < i → targetAt (s.coreStates.take s.cpuCount) k ≠ some c)
    (hqc : getQ s.queues c = [m]) :
    ((tickBatch genId now s).filter (fun r => decide (r.msg.clientId = c)))
        = [⟨m, now, now - m.timestamp, i⟩]
    ∧ (∀ r ∈ tickBatch genId now s, r.coreId ≠ j)
    ∧ getQ (tickBody genId now s).queues c = [] := by
  have h := processCores_collision genId now s.tickRate c m
    (s.coreStates.take s.cpuCount) i j 0 s.queues hwf hij hj hi hjt hlow hqc
  have hq : (tickBody genId now s).queues
      = (processCores genId now s.tickRate 0 (s.coreStates.take s.cpuCount) s.queues).queues := by
    simp only [tickBody]
    split <;> rfl
  refine ⟨?_, ?_, ?_⟩
  · simpa [tickBatch] using h.1
  · intro r hr
    have h2 := h.2.1 r (by simpa [tickBatch] using hr)
    simpa using h2
  · rw [hq]
    exact h.2.2

theorem C2_collision_determinism_witness :
    getQ (⟨false, 2, ⟨[⟨"w2", .APEX, "p", 100, .PING⟩], [], [], []⟩, [], [],
        [⟨0⟩, ⟨0⟩], true, false, 1200, ⟨0, 0, 4⟩⟩ : SimState).queues .APEX
      = [⟨"w2", .APEX, "p", 100, .PING⟩]
    ∧ (((tickBatch (fun _ => "g2") 1000
          (⟨false, 2, ⟨[⟨"w2", .APEX, "p", 100, .PING⟩], [], [], []⟩, [], [],
            [⟨0⟩, ⟨0⟩], true, false, 1200, ⟨0, 0, 4⟩⟩ : SimState)).filter
            (fun r => decide (r.msg.clientId = .APEX)))
        = [⟨⟨"w2", .APEX, "p", 100, .PING⟩, 1000, 1000 - (100 : Int), 0⟩]
      ∧ (∀ r ∈ tickBatch (fun _ => "g2") 1000
            (⟨false, 2, ⟨[⟨"w2", .APEX, "p", 100, .PING⟩], [], [], []⟩, [], [],
              [⟨0⟩, ⟨0⟩], true, false, 1200, ⟨0, 0, 4⟩⟩ : SimState), r.coreId ≠ 1)
      ∧ getQ (tickBody (fun _ => "g2") 1000
            (⟨false, 2, ⟨[⟨"w2", .APEX, "p", 100, .PING⟩], [], [], []⟩, [], [],
              [⟨0⟩, ⟨0⟩], true, false, 1200, ⟨0, 0, 4⟩⟩ : SimState)).queues .APEX = []) :=
  ⟨by decide,
    C2_collision_determinism (fun _ => "g2") 1000
      (⟨false, 2, ⟨[⟨"w2", .APEX, "p", 100, .PING⟩], [], [], []⟩, [], [],
        [⟨0⟩, ⟨0⟩], true, false, 1200, ⟨0, 0, 4⟩⟩ : SimState)
      .APEX ⟨"w2", .APEX, "p", 100, .PING⟩ 0 1
      (by decide) (by decide) (by decide) (by decide) (by decide)
      (fun k hk => absurd hk (Nat.not_lt_zero k)) (by decide)⟩
